import Mathlib

/-!
Verification of the request/authentication layer of `next-drupal`
(`packages/next-drupal/src/next-drupal-base.ts`) via a shallow embedding.

JavaScript strings are modelled as Lean `String`s, except in the path
construction helpers (`constructPathFromSegment`, `addLocalePrefix`,
`encodeURIComponent`), where they are modelled as `List Char` so that the
path-shape invariant can be proved by list induction.  JavaScript
`undefined` is modelled by `Option`; object truthiness by `Option.isSome`;
string truthiness by non-emptiness.  The network is modelled by passing the
token endpoint's `Response` as an explicit argument and counting the number
of token-endpoint requests a call issues.
-/

deriving instance DecidableEq for Except

namespace NextDrupal

/-- Lower-cases the ASCII letters of a string (the normalization the WHATWG
`Headers` class applies to header names). -/
def lowerStr (s : String) : String := String.mk (s.toList.map Char.toLower)

/-- JS `s.startsWith(p)`, computed on the character sequences. -/
def jsStartsWith (s p : String) : Bool := p.toList.isPrefixOf s.toList

/-- The upper-case hexadecimal digit for `n % 16`, as used by percent
encoding (`encodeURIComponent` and the `qs` encoder both emit upper-case
hex). -/
def hexUpper (n : Nat) : Char := "0123456789ABCDEF".toList.getD (n % 16) '0'

/-- UTF-8 encoding of a unicode scalar value, as a list of byte values.
`Buffer.from(string)`, `encodeURIComponent` and the `qs` encoder all operate
on the UTF-8 bytes of the string. -/
def utf8Bytes (c : Char) : List Nat :=
  let n := c.toNat
  if n < 0x80 then [n]
  else if n < 0x800 then [0xC0 + n / 64, 0x80 + n % 64]
  else if n < 0x10000 then [0xE0 + n / 4096, 0x80 + n / 64 % 64, 0x80 + n % 64]
  else [0xF0 + n / 262144, 0x80 + n / 4096 % 64, 0x80 + n / 64 % 64, 0x80 + n % 64]

/-- Percent-encodes one byte: `%XY` with upper-case hex digits. -/
def percentByte (b : Nat) : List Char := ['%', hexUpper (b / 16), hexUpper b]

/-- The base64 alphabet used by `Buffer.toString("base64")`. -/
def base64Alphabet : List Char :=
  "ABCDEFGHIJKLMNOPQRSTUVWXYZabcdefghijklmnopqrstuvwxyz0123456789+/".toList

/-- One character of base64 output (index taken modulo 64). -/
def base64Digit (n : Nat) : Char := base64Alphabet.getD (n % 64) 'A'

/-- Standard base64 of a byte list, three bytes to four characters, padded
with `=`. -/
def base64Bytes : List Nat → List Char
  | [] => []
  | [a] => [base64Digit (a / 4), base64Digit (a % 4 * 16), '=', '=']
  | [a, b] => [base64Digit (a / 4), base64Digit (a % 4 * 16 + b / 16),
      base64Digit (b % 16 * 4), '=']
  | a :: b :: c :: rest =>
      base64Digit (a / 4) :: base64Digit (a % 4 * 16 + b / 16) ::
      base64Digit (b % 16 * 4 + c / 64) :: base64Digit (c % 64) ::
      base64Bytes rest

/-- `Buffer.from(s).toString("base64")`: base64 of the UTF-8 bytes of `s`. -/
def base64Encode (s : String) : String :=
  String.mk (base64Bytes (s.toList.map utf8Bytes).flatten)

/-! ## Headers

The WHATWG `Headers` class: an ordered collection of name/value pairs whose
names are case-insensitive; it is modelled as an association list whose
stored keys are lower-cased. -/

/-- A headers collection: stored keys are lower-case, unique, in insertion
order. -/
abbrev HeadersMap := List (String × String)

/-- `headers.get(k)`: the value stored under the (case-insensitive) name. -/
def hget (h : HeadersMap) (k : String) : Option String :=
  (h.find? (fun p => p.1 == lowerStr k)).map (fun p => p.2)

/-- `headers.set(k, v)`: replaces the value under the (unique) matching
name in place, or appends the pair when the name is new. -/
def hset : HeadersMap → String → String → HeadersMap
  | [], k, v => [(lowerStr k, v)]
  | p :: t, k, v => if p.1 == lowerStr k then (p.1, v) :: t else p :: hset t k v

/-- `headers.append(k, v)`: combines with an existing value under the same
name using `", "` (as the `Headers` constructor does for duplicate names),
or appends the pair when the name is new. -/
def happend : HeadersMap → String → String → HeadersMap
  | [], k, v => [(lowerStr k, v)]
  | p :: t, k, v =>
    if p.1 == lowerStr k then (p.1, p.2 ++ ", " ++ v) :: t else p :: happend t k v

/-- `new Headers(init)` for a list of name/value pairs: appends each pair in
order (duplicate names combine). -/
def mkHeaders (l : List (String × String)) : HeadersMap :=
  l.foldl (fun h p => happend h p.1 p.2) []

/-! ## URLs and query strings (`buildUrl`, lines 314-331) -/

/-- A parsed URL, as far as this layer observes it: origin, path, query.
`search` is stored without the leading `?`. -/
structure ModelURL where
  origin : String
  pathname : String
  search : String
deriving DecidableEq, Repr

/-- `url.toString()`: origin, path, and `?` plus the query when the query is
non-empty. -/
def ModelURL.toStr (u : ModelURL) : String :=
  u.origin ++ u.pathname ++ (if u.search == "" then "" else "?" ++ u.search)

/-- `new URL(path, base)` for the shapes this layer uses: `base` an
origin-only absolute URL (no path, no trailing slash) and `path` a relative
reference.  A path-absolute reference (leading `/`) becomes the URL's path;
any other relative reference resolves against the origin's root path. -/
def newURL (path base : String) : ModelURL :=
  if jsStartsWith path "/" then { origin := base, pathname := path, search := "" }
  else { origin := base, pathname := "/" ++ path, search := "" }

/-- The `qs` default (RFC 3986) escaper: alphanumerics and `-._~` kept,
every other character percent-encoded bytewise. -/
def qsEscape (s : String) : String :=
  String.mk ((s.toList.map (fun c =>
    if c.isAlphanum || c == '-' || c == '.' || c == '_' || c == '~' then [c]
    else ((utf8Bytes c).map percentByte).flatten)).flatten)

/-- `qs.stringify` on a flat map of string keys to string values (the shape
this layer passes): each pair escaped as `key=value`, joined with `&`. -/
def qsStringify (l : List (String × String)) : String :=
  String.intercalate "&" (l.map (fun p => qsEscape p.1 ++ "=" ++ qsEscape p.2))

/-- `NextDrupalBase.buildUrl` (next-drupal-base.ts:314): resolves `path`
against the base URL and, when search parameters are given, sets the query
to their `qs.stringify` encoding.  Search parameters are modelled as the
flat string map shape; the `getQueryObject` adapter unwraps to the same
shape before this point. -/
def buildUrl (baseUrl : String) (path : String)
    (searchParams : Option (List (String × String))) : ModelURL :=
  let url := newURL path baseUrl
  match searchParams with
  | some l => { url with search := qsStringify l }
  | none => url

/-! ## Paths (`constructPathFromSegment` lines 373-418, `addLocalePrefix`
lines 429-445)

Paths are modelled as `List Char` (a JS string is its character sequence);
`s.startsWith("/")` is a check of the first character, `s.endsWith("/")` of
the last, `s.slice(0, -1)` is `dropLast`. -/

/-- One character of `encodeURIComponent` output: kept verbatim when in
the unreserved set (alphanumerics and `-_.!~*'()`), otherwise the percent-
encoded UTF-8 bytes. -/
def encodeChar (c : Char) : List Char :=
  if c.isAlphanum || c ∈ ['-', '_', '.', '!', '~', '*', '\'', '(', ')'] then [c]
  else ((utf8Bytes c).map percentByte).flatten

/-- `encodeURIComponent`: keeps unreserved characters, percent-encodes the
UTF-8 bytes of every other character. -/
def encodeURIComponent (s : List Char) : List Char := (s.map encodeChar).flatten

/-- `array.join("/")` on a list of strings. -/
def joinSlash : List (List Char) → List Char
  | [] => []
  | [p] => p
  | p :: q :: rest => p ++ '/' :: joinSlash (q :: rest)

/-- The `segment` argument of `constructPathFromSegment`: a single string or
an array of strings. -/
inductive Segment where
  | str (s : List Char)
  | arr (l : List (List Char))
deriving DecidableEq, Repr

/-- The options record of the path helpers (`locale`, `defaultLocale`,
`pathPrefix`); every field may be absent. -/
structure PathOptions where
  locale : Option (List Char) := none
  defaultLocale : Option (List Char) := none
  pathPrefix : Option (List Char) := none
deriving DecidableEq, Repr

/-- `NextDrupalBase.addLocalePrefix` (next-drupal-base.ts:429): ensures the
path starts with `/`, then prefixes `/{locale}` when `locale` is truthy,
the path does not already start with the string `/{locale}`, and `locale`
differs from `defaultLocale` (JS `!==` on possibly-undefined values is
`Option` inequality). -/
def addLocalePrefix (path : List Char) (locale defaultLocale : Option (List Char)) :
    List Char :=
  let path1 := if path.head? == some '/' then path else '/' :: path
  let addP : Bool :=
    match locale with
    | none => false
    | some l => !l.isEmpty && !(('/' :: l).isPrefixOf path1) && (some l != defaultLocale)
  if addP then ('/' :: (locale.getD [])) ++ path1 else path1

/-- `s.endsWith("/") ? s.slice(0, -1) : s`: strips one trailing slash. -/
def stripTrailingSlash (l : List Char) : List Char :=
  if l.getLast? == some '/' then l.dropLast else l

/-- Lines 385-392: a truthy `pathPrefix` is given a leading `/` when
missing, then one trailing `/` is stripped; a falsy one passes through. -/
def normalizePathPrefix (pp : List Char) : List Char :=
  if !pp.isEmpty then
    stripTrailingSlash (if !(pp.head? == some '/') then '/' :: pp else pp)
  else pp

/-- Lines 395-397: a truthy string segment becomes a one-element array, a
falsy one the empty array; an array is taken as is. -/
def segmentParts : Segment → List (List Char)
  | .str s => if !s.isEmpty then [s] else []
  | .arr l => l

/-- Lines 400-412: substitute the front page when both the joined segment
and the normalized prefix are empty, give the segment a leading `/` when
truthy, and strip one trailing `/`. -/
def normalizeSegment (frontPage joined pathPrefix1 : List Char) : List Char :=
  let seg1 := if joined.isEmpty && pathPrefix1.isEmpty then frontPage else joined
  let seg2 := if !seg1.isEmpty && !(seg1.head? == some '/') then '/' :: seg1 else seg1
  stripTrailingSlash seg2

/-- `NextDrupalBase.constructPathFromSegment` (next-drupal-base.ts:373):
normalizes `pathPrefix`, percent-encodes each segment part and joins with
`/`, normalizes the joined segment (front-page substitution, leading `/`,
no trailing `/`), and adds the locale prefix to the concatenation. -/
def constructPathFromSegment (frontPage : List Char) (segment : Segment)
    (options : PathOptions) : List Char :=
  let pathPrefix1 := normalizePathPrefix (options.pathPrefix.getD [])
  let joined := joinSlash ((segmentParts segment).map encodeURIComponent)
  let seg3 := normalizeSegment frontPage joined pathPrefix1
  addLocalePrefix (pathPrefix1 ++ seg3) options.locale options.defaultLocale

/-! ## Auth configurations and the token cache -/

/-- The object shape of a `NextDrupalAuth` configuration: every recognized
field may be present or absent (`undefined`). -/
structure AuthObj where
  username : Option String := none
  password : Option String := none
  access_token : Option String := none
  token_type : Option String := none
  clientId : Option String := none
  clientSecret : Option String := none
  scope : Option String := none
  url : Option String := none
deriving DecidableEq, Repr

/-- `NextDrupalAuth`: an object of credential fields, a pre-built header
string, or a zero-argument callback producing a header. -/
inductive NextDrupalAuth where
  | obj (a : AuthObj)
  | str (s : String)
  | func (f : Unit → String)

/-- `isBasicAuth` (next-drupal-base.ts:642): `username` and `password` both
defined; a string, callback or absent configuration has neither field. -/
def isBasicAuth : Option NextDrupalAuth → Bool
  | some (.obj a) => a.username.isSome && a.password.isSome
  | _ => false

/-- `isAccessTokenAuth` (next-drupal-base.ts:657): `access_token` and
`token_type` both defined. -/
def isAccessTokenAuth : Option NextDrupalAuth → Bool
  | some (.obj a) => a.access_token.isSome && a.token_type.isSome
  | _ => false

/-- `isClientIdSecretAuth` (next-drupal-base.ts:672): `clientId` and
`clientSecret` both defined. -/
def isClientIdSecretAuth : Option NextDrupalAuth → Bool
  | some (.obj a) => a.clientId.isSome && a.clientSecret.isSome
  | _ => false

/-- `isClientIdSecretAuth` applied to the bare object parameter of
`getAccessToken` (`clientIdSecret?: NextDrupalAuthClientIdSecret`). -/
def isClientIdSecretAuthObj : Option AuthObj → Bool
  | some a => a.clientId.isSome && a.clientSecret.isSome
  | none => false

/-- An `AccessToken` as the token endpoint's JSON body is cast to it: the
cast is unchecked, so every field may be absent. -/
structure AccessToken where
  access_token : Option String := none
  token_type : Option String := none
  expires_in : Option Int := none
deriving DecidableEq, Repr

/-- The token-cache instance fields of `NextDrupalBase`: `_token`,
`_tokenExpiresOn` (absent also models the `NaN` timestamp a missing
`expires_in` produces) and `_tokenRequestDetails`. -/
structure TokenState where
  token : Option AccessToken := none
  tokenExpiresOn : Option Int := none
  tokenRequestDetails : Option AuthObj := none
deriving DecidableEq, Repr

/-! ## Responses and error translation (`getErrorsFromResponse` lines
609-633, `throwIfJsonErrors` lines 596-601) -/

/-- A JSON:API error object (the fields this layer reads). -/
structure JsonApiError where
  title : Option String := none
  status : Option String := none
  detail : Option String := none
deriving DecidableEq, Repr

/-- The parsed JSON body of a response, restricted to the fields this layer
reads: `message` and `errors` for error translation, the token fields for
the token flow. -/
structure JsonBody where
  message : Option String := none
  errors : Option (List JsonApiError) := none
  access_token : Option String := none
  token_type : Option String := none
  expires_in : Option Int := none
deriving DecidableEq, Repr

/-- A `Response` as this layer observes it.  `body = none` models a body
that is not valid JSON: `response.json()` rejects on it. -/
structure Response where
  ok : Bool
  status : Nat
  statusText : String := ""
  contentType : Option String := none
  body : Option JsonBody := none
deriving DecidableEq, Repr

/-- The translated error detail: a plain message string or the response's
list of JSON:API error objects. -/
inductive ErrorDetail where
  | text (s : String)
  | errorList (es : List JsonApiError)
deriving DecidableEq, Repr

/-- The errors this layer throws.  `jsonApiErrors` carries the translated
detail, HTTP status and message prefix (the `JsonApiErrors` class);
`syntaxError` is the rejection of `response.json()` on a non-JSON body;
`transport` is a failure of the underlying transport. -/
inductive JsError where
  | configError (msg : String)
  | jsonApiErrors (detail : ErrorDetail) (status : Nat) (messagePrefix : String)
  | syntaxError
  | transport (msg : String)
deriving DecidableEq, Repr

/-- JS `error.message` of a modelled error.  `JsonApiErrors` builds its
message in jsonapi-errors.ts, which is not part of this file; modelled from
the spec: the error carries the message prefix, the status and the detail,
so its message is rendered from the prefix and status. -/
def JsError.message : JsError → String
  | .configError m => m
  | .jsonApiErrors _ status messagePrefix => messagePrefix ++ toString status
  | .syntaxError => "Unexpected end of JSON input"
  | .transport m => m

/-- `NextDrupalBase.getErrorsFromResponse` (next-drupal-base.ts:609): on
content-type exactly `application/json`, parse the body and return its
`message` when that is a truthy string; on exactly
`application/vnd.api+json`, parse and return its `errors` when that is a
non-empty list; in every other case fall through to `statusText`.  A parse
rejection propagates. -/
def getErrorsFromResponse (r : Response) : Except JsError ErrorDetail :=
  if r.contentType == some "application/json" then
    match r.body with
    | none => .error .syntaxError
    | some b =>
      match b.message with
      | some m => if m != "" then .ok (.text m) else .ok (.text r.statusText)
      | none => .ok (.text r.statusText)
  else if r.contentType == some "application/vnd.api+json" then
    match r.body with
    | none => .error .syntaxError
    | some b =>
      match b.errors with
      | some es => if !es.isEmpty then .ok (.errorList es) else .ok (.text r.statusText)
      | none => .ok (.text r.statusText)
  else .ok (.text r.statusText)

/-- `NextDrupalBase.throwIfJsonErrors` (next-drupal-base.ts:596): on a
non-ok response, throw a `JsonApiErrors` carrying the translated detail,
the response status and the message prefix (or propagate the parse
rejection); otherwise return normally. -/
def throwIfJsonErrors (r : Response) (messagePrefix : String) : Except JsError Unit :=
  if !r.ok then
    match getErrorsFromResponse r with
    | .ok d => .error (.jsonApiErrors d r.status messagePrefix)
    | .error e => .error e
  else .ok ()

/-! ## The token flow (`getAccessToken`, lines 462-539)

The network is explicit: `tokenResp` is the response the token endpoint
returns for the one POST a cache miss issues, and each operation also
returns the number of token-endpoint requests it issued (0 or 1). -/

/-- The token endpoint path defaulted by `simple_oauth`. -/
def DEFAULT_AUTH_URL : String := "/oauth/token"

/-- The message prefix `getAccessToken` passes to `throwIfJsonErrors`. -/
def tokenErrorPrefix : String := "Error while fetching new access token: "

/-- The auth-resolution step of `getAccessToken` (lines 469-485): prefer the
explicit `clientIdSecret` argument (with the default token URL filled in),
fall back to the instance auth when that is a client-id/secret object,
throw `auth is not configured` when the instance auth is absent, and
`'clientId' and 'clientSecret' required` otherwise. -/
def resolveTokenAuth (selfAuth : Option NextDrupalAuth) (clientIdSecret : Option AuthObj) :
    Except JsError AuthObj :=
  if isClientIdSecretAuthObj clientIdSecret then
    .ok { clientIdSecret.getD {} with
          url := some ((clientIdSecret.getD {}).url.getD DEFAULT_AUTH_URL) }
  else if isClientIdSecretAuth selfAuth then
    match selfAuth with
    | some (.obj a) => .ok a
    | _ => .error (.configError "unreachable")
  else
    match selfAuth with
    | none => .error (.configError
        "auth is not configured. See https://next-drupal.org/docs/client/auth")
    | some _ => .error (.configError
        "'clientId' and 'clientSecret' required. See https://next-drupal.org/docs/client/auth")

/-- The cache-reuse test of `getAccessToken` (lines 491-497), given that a
token is cached: `Date.now() < this._tokenExpiresOn` (false against the
absent/`NaN` timestamp) and the stored request's `clientId`, `clientSecret`
and `scope` strictly equal (`===`) the resolved request's; an absent stored
field compares equal to an absent requested field. -/
def tokenCacheFresh (st : TokenState) (now : Int) (auth : AuthObj) : Bool :=
  (match st.tokenExpiresOn with | some e => now < e | none => false) &&
  (st.tokenRequestDetails.bind (fun d => d.clientId) == auth.clientId) &&
  (st.tokenRequestDetails.bind (fun d => d.clientSecret) == auth.clientSecret) &&
  (st.tokenRequestDetails.bind (fun d => d.scope) == auth.scope)

/-- The cache-miss tail of `getAccessToken` (lines 502-538): one POST to the
token endpoint (its basic authorization header is built inline, as
`getAuthorizationHeader` on `{username: clientId, password: clientSecret}`
reduces to), error translation via `throwIfJsonErrors`, then parse the
body, store it in the cache together with the resolved request parameters,
and return it. -/
def getAccessTokenFetch (now : Int) (st : TokenState) (auth : AuthObj)
    (tokenResp : Response) : Except JsError AccessToken × TokenState × Nat :=
  let _authHeader := "Basic " ++
    base64Encode (auth.clientId.getD "" ++ ":" ++ auth.clientSecret.getD "")
  match throwIfJsonErrors tokenResp tokenErrorPrefix with
  | .error e => (.error e, st, 1)
  | .ok _ =>
    match tokenResp.body with
    | none => (.error .syntaxError, st, 1)
    | some b =>
      let result : AccessToken :=
        { access_token := b.access_token, token_type := b.token_type,
          expires_in := b.expires_in }
      let st' : TokenState :=
        { token := some result,
          tokenExpiresOn := result.expires_in.map (fun n => now + n * 1000),
          tokenRequestDetails := some auth }
      (.ok result, st', 1)

/-- `NextDrupalBase.getAccessToken` (next-drupal-base.ts:462).  Returns the
call's result, the token-cache state after the call and the number of
token-endpoint requests issued.  A pre-supplied `accessToken` short-
circuits everything; a cached fresh matching token is returned without a
request; otherwise `getAccessTokenFetch` issues the one POST. -/
def getAccessToken (baseUrl : String) (now : Int) (st : TokenState)
    (selfAccessToken : Option AccessToken) (selfAuth : Option NextDrupalAuth)
    (clientIdSecret : Option AuthObj) (tokenResp : Response) :
    Except JsError AccessToken × TokenState × Nat :=
  match selfAccessToken with
  | some t => (.ok t, st, 0)
  | none =>
    match resolveTokenAuth selfAuth clientIdSecret with
    | .error e => (.error e, st, 0)
    | .ok auth =>
      let _url := buildUrl baseUrl (auth.url.getD "undefined") none
      match st.token with
      | some t =>
        if tokenCacheFresh st now auth then (.ok t, st, 0)
        else getAccessTokenFetch now st auth tokenResp
      | none => getAccessTokenFetch now st auth tokenResp

/-! ## `getAuthorizationHeader` (lines 246-279) -/

/-- `NextDrupalBase.getAuthorizationHeader` (next-drupal-base.ts:246).
Dispatch in source order: basic auth (`"Basic "` plus base64 of
`username:password`), client-id/secret (delegate to `getAccessToken` and
prefix `"Bearer "`; an absent `access_token` field interpolates as the
string `undefined`), access-token auth (`token_type`, a space,
`access_token`), a string used verbatim, a callback invoked with no
arguments, and otherwise a configuration error.  Returns the header
result, the token-cache state after the call and the number of
token-endpoint requests issued. -/
def getAuthorizationHeader (baseUrl : String) (now : Int) (st : TokenState)
    (selfAccessToken : Option AccessToken) (selfAuth : Option NextDrupalAuth)
    (tokenResp : Response) (auth : Option NextDrupalAuth) :
    Except JsError String × TokenState × Nat :=
  if isBasicAuth auth then
    match auth with
    | some (.obj a) =>
      (.ok ("Basic " ++ base64Encode (a.username.getD "" ++ ":" ++ a.password.getD "")),
        st, 0)
    | _ => (.error (.configError "unreachable"), st, 0)
  else if isClientIdSecretAuth auth then
    match auth with
    | some (.obj a) =>
      match getAccessToken baseUrl now st selfAccessToken selfAuth (some a) tokenResp with
      | (.ok tok, st', n) => (.ok ("Bearer " ++ tok.access_token.getD "undefined"), st', n)
      | (.error e, st', n) => (.error e, st', n)
    | _ => (.error (.configError "unreachable"), st, 0)
  else if isAccessTokenAuth auth then
    match auth with
    | some (.obj a) =>
      (.ok (a.token_type.getD "" ++ " " ++ a.access_token.getD ""), st, 0)
    | _ => (.error (.configError "unreachable"), st, 0)
  else
    match auth with
    | some (.str s) => (.ok s, st, 0)
    | some (.func f) => (.ok (f ()), st, 0)
    | _ => (.error (.configError
        "auth is not configured. See https://next-drupal.org/docs/client/auth"), st, 0)

/-! ## `fetch` (lines 198-238) -/

/-- The `withAuth` fetch option: a boolean or an auth configuration. -/
inductive WithAuthOption where
  | bool (b : Bool)
  | auth (a : NextDrupalAuth)

/-- JS truthiness of the `withAuth` option: `false` and the empty string
are falsy, every other present value is truthy. -/
def withAuthTruthy : Option WithAuthOption → Bool
  | none => false
  | some (.bool b) => b
  | some (.auth (.str s)) => s != ""
  | some (.auth _) => true

/-- `withAuth === true ? this.auth : withAuth` (line 218). -/
def withAuthArg (w : Option WithAuthOption) (selfAuth : Option NextDrupalAuth) :
    Option NextDrupalAuth :=
  match w with
  | some (.bool true) => selfAuth
  | some (.auth a) => some a
  | _ => none

/-- The per-call fetch options this layer touches: a caller-supplied
`credentials`, caller headers (a raw name/value list) and `withAuth`. -/
structure FetchOptions where
  credentials : Option String := none
  headers : Option (List (String × String)) := none
  withAuth : Option WithAuthOption := none

/-- What `fetch` hands to the transport (the injected fetcher or global
fetch): the final input string, the forced `credentials` value and the
merged headers. -/
structure DispatchedRequest where
  input : String
  credentials : String
  headers : HeadersMap
deriving DecidableEq, Repr

/-- `NextDrupalBase.fetch` (next-drupal-base.ts:198), up to the transport
boundary: forces `credentials: "include"`; copies the instance headers and
overwrites them per key with the per-call headers; when `withAuth` is
truthy resolves an authorization header (propagating its failure) and sets
it; rewrites a leading-`/` string input against the base URL; and hands
the result to the transport.  Also returns the token-cache state and the
token-endpoint request count of the auth resolution. -/
def fetchModel (baseUrl : String) (instHeaders : List (String × String))
    (selfAuth : Option NextDrupalAuth) (selfAccessToken : Option AccessToken)
    (now : Int) (st : TokenState) (tokenResp : Response)
    (input : String) (opts : FetchOptions) :
    Except JsError DispatchedRequest × TokenState × Nat :=
  let merged := (mkHeaders (opts.headers.getD [])).foldl
    (fun h p => hset h p.1 p.2) (mkHeaders instHeaders)
  let finish := fun (headers : HeadersMap) (st' : TokenState) (n : Nat) =>
    let input' := if jsStartsWith input "/" then baseUrl ++ input else input
    ((.ok { input := input', credentials := "include", headers } :
        Except JsError DispatchedRequest), st', n)
  if withAuthTruthy opts.withAuth then
    match getAuthorizationHeader baseUrl now st selfAccessToken selfAuth tokenResp
        (withAuthArg opts.withAuth selfAuth) with
    | (.ok h, st', n) => finish (hset merged "Authorization" h) st' n
    | (.error e, st', n) => (.error e, st', n)
  else finish merged st 0

/-! ## `validateDraftUrl` (lines 547-578) -/

/-- `NextDrupalBase.validateDraftUrl` (next-drupal-base.ts:547), over the
outcome of its underlying `this.fetch` of the draft-url validation
endpoint: a resolved response is returned unchanged; a thrown error is
caught and converted into a synthesized `Response` with status 401 whose
JSON body is `{message: error.message}` (a synthesized `Response` carries
the default `statusText` and a text content-type). -/
def validateDraftUrl (outcome : Except JsError Response) : Response :=
  match outcome with
  | .ok r => r
  | .error e =>
    { ok := false, status := 401, statusText := "",
      contentType := some "text/plain;charset=UTF-8",
      body := some { message := some e.message } }

/-! ## Header lemmas -/

theorem toNat_ofNatAux (m : Nat) (h : m.isValidChar) : (Char.ofNatAux m h).toNat = m := rfl

theorem toNat_ofNat_valid (m : Nat) (h : m.isValidChar) : (Char.ofNat m).toNat = m := by
  simp [Char.ofNat, h, toNat_ofNatAux]

theorem toLower_idem (c : Char) : c.toLower.toLower = c.toLower := by
  unfold Char.toLower
  by_cases h : c.toNat ≥ 65 ∧ c.toNat ≤ 90
  · have hv : (c.toNat + 32).isValidChar := by left; omega
    simp only [if_pos h, toNat_ofNat_valid _ hv]
    rw [if_neg (by omega)]
  · simp [h]

theorem lowerStr_idem (s : String) : lowerStr (lowerStr s) = lowerStr s := by
  simp [lowerStr, List.map_map, Function.comp_def, toLower_idem]

/-- The representation invariant a real `Headers` object keeps: stored
names are unique and already lower-case. -/
def HeadersWF (h : HeadersMap) : Prop :=
  (h.map (fun p => p.1)).Nodup ∧ ∀ p ∈ h, lowerStr p.1 = p.1

/-- The first defined of two optional values (per-call value wins over the
instance value in the header merge). -/
def firstSome {α : Type} : Option α → Option α → Option α
  | some x, _ => some x
  | none, b => b

theorem hget_nil (k : String) : hget [] k = none := rfl

theorem hget_cons (p : String × String) (t : HeadersMap) (k : String) :
    hget (p :: t) k = if p.1 = lowerStr k then some p.2 else hget t k := by
  by_cases h : p.1 = lowerStr k
  · simp [hget, List.find?_cons, h]
  · have hb : (p.1 == lowerStr k) = false := by simp [h]
    simp [hget, List.find?_cons, hb, h]

theorem hget_eq_none (t : HeadersMap) (k : String) (h : ∀ p ∈ t, p.1 ≠ lowerStr k) :
    hget t k = none := by
  induction t with
  | nil => rfl
  | cons p t ih =>
    rw [hget_cons, if_neg (h p (List.mem_cons_self p t))]
    exact ih fun q hq => h q (List.mem_cons_of_mem p hq)

theorem hget_hset (m : HeadersMap) (k k' v : String) :
    hget (hset m k v) k' = if lowerStr k' = lowerStr k then some v else hget m k' := by
  induction m with
  | nil =>
    rw [show hset [] k v = [(lowerStr k, v)] from rfl, hget_cons]
    by_cases h : lowerStr k' = lowerStr k
    · rw [if_pos h.symm, if_pos h]
    · rw [if_neg (fun hh => h hh.symm), if_neg h]
  | cons p t ih =>
    by_cases hp : p.1 = lowerStr k
    · rw [show hset (p :: t) k v = (p.1, v) :: t from by simp [hset, hp], hget_cons,
        hget_cons]
      by_cases h : lowerStr k' = lowerStr k
      · rw [if_pos (hp.trans h.symm), if_pos h]
      · rw [if_neg (fun hh => h ((hp ▸ hh : lowerStr k = lowerStr k')).symm), if_neg h,
          if_neg (fun hh => h ((hp ▸ hh : lowerStr k = lowerStr k')).symm)]
    · rw [show hset (p :: t) k v = p :: hset t k v from by simp [hset, hp], hget_cons,
        hget_cons]
      by_cases hp' : p.1 = lowerStr k'
      · rw [if_pos hp', if_neg (fun hh => hp (hp'.trans hh)), if_pos hp']
      · rw [if_neg hp', if_neg hp', ih]

theorem hget_hset_self (m : HeadersMap) (k v : String) :
    hget (hset m k v) k = some v := by
  rw [hget_hset, if_pos rfl]

theorem hget_foldl_hset (l : List (String × String)) (base : HeadersMap) (k : String)
    (hw : HeadersWF l) :
    hget (l.foldl (fun h p => hset h p.1 p.2) base) k
      = firstSome (hget l k) (hget base k) := by
  induction l generalizing base with
  | nil => rw [List.foldl_nil, hget_nil]; rfl
  | cons p t ih =>
    obtain ⟨hnd, hlc⟩ := hw
    rw [List.map_cons, List.nodup_cons] at hnd
    have hwt : HeadersWF t :=
      ⟨hnd.2, fun q hq => hlc q (List.mem_cons_of_mem p hq)⟩
    have hlcp : lowerStr p.1 = p.1 := hlc p (List.mem_cons_self p t)
    rw [List.foldl_cons, ih _ hwt, hget_hset, hget_cons]
    by_cases h : lowerStr k = p.1
    · have ht : hget t k = none := hget_eq_none t k fun q hq hq1 =>
        hnd.1 (by rw [← hq1.trans h]; exact List.mem_map_of_mem (fun r => r.1) hq)
      rw [if_pos (h.trans hlcp.symm), if_pos h.symm, ht]
      rfl
    · rw [if_neg (fun hh => h (hh.trans hlcp)), if_neg (fun hh => h hh.symm)]

theorem happend_keys (h : HeadersMap) (k v : String) :
    (happend h k v).map (fun p => p.1)
      = if h.any (fun p => p.1 == lowerStr k) then h.map (fun p => p.1)
        else h.map (fun p => p.1) ++ [lowerStr k] := by
  induction h with
  | nil => simp [happend]
  | cons p t ih =>
    by_cases hp : p.1 = lowerStr k
    · simp [happend, hp]
    · by_cases ha : t.any (fun q => q.1 == lowerStr k) <;>
        simp [happend, hp, ha, ih]

theorem happend_lc (h : HeadersMap) (k v : String)
    (hlc : ∀ p ∈ h, lowerStr p.1 = p.1) :
    ∀ q ∈ happend h k v, lowerStr q.1 = q.1 := by
  induction h with
  | nil =>
    intro q hq
    simp only [happend, List.mem_singleton] at hq
    simp [hq, lowerStr_idem]
  | cons p t ih =>
    intro q hq
    by_cases hp : p.1 = lowerStr k
    · rw [show happend (p :: t) k v = (p.1, p.2 ++ ", " ++ v) :: t from by
        simp [happend, hp]] at hq
      rcases List.mem_cons.mp hq with hq | hq
      · simpa [hq] using hlc p (List.mem_cons_self p t)
      · exact hlc q (List.mem_cons_of_mem p hq)
    · rw [show happend (p :: t) k v = p :: happend t k v from by simp [happend, hp]] at hq
      rcases List.mem_cons.mp hq with hq | hq
      · simpa [hq] using hlc p (List.mem_cons_self p t)
      · exact ih (fun r hr => hlc r (List.mem_cons_of_mem p hr)) q hq

theorem happend_wf (h : HeadersMap) (k v : String) (hw : HeadersWF h) :
    HeadersWF (happend h k v) := by
  obtain ⟨hnd, hlc⟩ := hw
  refine ⟨?_, happend_lc h k v hlc⟩
  rw [happend_keys]
  by_cases ha : h.any (fun p => p.1 == lowerStr k)
  · simpa [ha] using hnd
  · have hk : lowerStr k ∉ h.map (fun p => p.1) := by
      rw [Bool.not_eq_true, List.any_eq_false] at ha
      intro hmem
      obtain ⟨q, hq, hq1⟩ := List.mem_map.mp hmem
      exact ha q hq (by simp [hq1])
    rw [if_neg ha]
    exact hnd.append (List.nodup_singleton _)
      (fun a ha1 ha2 => hk ((List.mem_singleton.mp ha2) ▸ ha1))

theorem mkHeaders_wf (l : List (String × String)) : HeadersWF (mkHeaders l) := by
  suffices h : ∀ acc, HeadersWF acc →
      HeadersWF (l.foldl (fun h p => happend h p.1 p.2) acc) from
    h [] ⟨List.nodup_nil, by simp⟩
  induction l with
  | nil => exact fun acc h => h
  | cons p t ih => exact fun acc h => ih _ (happend_wf acc p.1 p.2 h)

/-! ## Path-shape lemmas (for claim C6) -/

/-- Whether the string contains two consecutive slashes. -/
def hasDoubleSlash : List Char → Bool
  | [] => false
  | [_] => false
  | a :: b :: t => (a == '/' && b == '/') || hasDoubleSlash (b :: t)

theorem hds_cons_slash (t : List Char) (h : hasDoubleSlash ('/' :: t) = false) :
    t.head? ≠ some '/' := by
  cases t with
  | nil => simp
  | cons b t' =>
    simp only [hasDoubleSlash, Bool.or_eq_false_iff, Bool.and_eq_false_iff] at h
    rcases h.1 with h1 | h1
    · simp at h1
    · simpa using h1

theorem hds_tail (a : Char) (t : List Char) (h : hasDoubleSlash (a :: t) = false) :
    hasDoubleSlash t = false := by
  cases t with
  | nil => rfl
  | cons b t' =>
    simp only [hasDoubleSlash, Bool.or_eq_false_iff] at h
    exact h.2

theorem hds_last_two (l : List Char) (h : hasDoubleSlash l = false)
    (hl : l.getLast? = some '/') : l.dropLast.getLast? ≠ some '/' := by
  induction l with
  | nil => simp at hl
  | cons a t ih =>
    cases t with
    | nil =>
      simp
    | cons b t' =>
      rw [List.getLast?_cons_cons] at hl
      simp only [hasDoubleSlash, Bool.or_eq_false_iff, Bool.and_eq_false_iff] at h
      cases t' with
      | nil =>
        have hb : b = '/' := by simpa using hl
        rcases h.1 with h1 | h1
        · simpa using h1
        · rw [hb] at h1
          simp at h1
      | cons c t'' =>
        have ih' := ih h.2 hl
        rw [List.dropLast_cons₂, List.dropLast_cons₂, List.getLast?_cons_cons]
        simpa [List.dropLast_cons₂] using ih'

theorem hds_of_no_slash (l : List Char) (h : ∀ c ∈ l, c ≠ '/') :
    hasDoubleSlash l = false := by
  induction l with
  | nil => rfl
  | cons a t ih =>
    cases t with
    | nil => rfl
    | cons b t' =>
      simp only [hasDoubleSlash, Bool.or_eq_false_iff, Bool.and_eq_false_iff]
      refine ⟨Or.inl ?_, ih fun c hc => h c (List.mem_cons_of_mem a hc)⟩
      simpa using h a (List.mem_cons_self a _)

theorem hexUpper_ne_slash (n : Nat) : hexUpper n ≠ '/' := by
  have hb : ∀ m < 16, "0123456789ABCDEF".toList.getD m '0' ≠ '/' := by decide
  exact hb (n % 16) (Nat.mod_lt _ (by norm_num))

theorem percentByte_chars (b : Nat) : ∀ c ∈ percentByte b, c ≠ '/' := by
  intro c hc
  rcases List.mem_cons.mp hc with rfl | hc
  · decide
  · rcases List.mem_cons.mp hc with rfl | hc
    · exact hexUpper_ne_slash _
    · rcases List.mem_cons.mp hc with rfl | hc
      · exact hexUpper_ne_slash _
      · simp at hc

theorem utf8Bytes_ne_nil (c : Char) : utf8Bytes c ≠ [] := by
  unfold utf8Bytes
  dsimp only
  split
  · simp
  · split
    · simp
    · split <;> simp

theorem encodeChar_chars (x : Char) : ∀ c ∈ encodeChar x, c ≠ '/' := by
  intro c hc
  unfold encodeChar at hc
  split at hc
  · rename_i hsafe
    rw [List.mem_singleton] at hc
    subst hc
    intro hcx
    subst hcx
    exact absurd hsafe (by decide)
  · rw [List.mem_flatten] at hc
    obtain ⟨l, hl, hcl⟩ := hc
    rw [List.mem_map] at hl
    obtain ⟨b, _, rfl⟩ := hl
    exact percentByte_chars b c hcl

theorem encodeChar_ne_nil (x : Char) : encodeChar x ≠ [] := by
  unfold encodeChar
  split
  · simp
  · obtain ⟨b, rest, hbr⟩ := List.exists_cons_of_ne_nil (utf8Bytes_ne_nil x)
    rw [hbr]
    simp [percentByte]

theorem encodeURIComponent_chars (s : List Char) :
    ∀ c ∈ encodeURIComponent s, c ≠ '/' := by
  intro c hc
  unfold encodeURIComponent at hc
  rw [List.mem_flatten] at hc
  obtain ⟨l, hl, hcl⟩ := hc
  rw [List.mem_map] at hl
  obtain ⟨x, _, rfl⟩ := hl
  exact encodeChar_chars x c hcl

theorem encodeURIComponent_ne_nil (s : List Char) (h : s ≠ []) :
    encodeURIComponent s ≠ [] := by
  obtain ⟨x, t, rfl⟩ := List.exists_cons_of_ne_nil h
  unfold encodeURIComponent
  rw [List.map_cons, List.flatten_cons]
  intro hnil
  rw [List.append_eq_nil] at hnil
  exact encodeChar_ne_nil x hnil.1

theorem joinSlash_ne_nil (ps : List (List Char)) (hps : ps ≠ [])
    (hne : ∀ p ∈ ps, p ≠ []) : joinSlash ps ≠ [] := by
  match ps with
  | [p] => exact hne p (List.mem_singleton_self p)
  | p :: q :: rest =>
    show p ++ '/' :: joinSlash (q :: rest) ≠ []
    simp

theorem joinSlash_head (ps : List (List Char)) (hps : ps ≠ [])
    (hne : ∀ p ∈ ps, p ≠ []) (hch : ∀ p ∈ ps, ∀ c ∈ p, c ≠ '/') :
    (joinSlash ps).head? ≠ some '/' := by
  match ps with
  | [p] =>
    obtain ⟨c, t, rfl⟩ := List.exists_cons_of_ne_nil (hne p (List.mem_singleton_self p))
    show (c :: t).head? ≠ some '/'
    simpa using hch _ (List.mem_singleton_self _) c (List.mem_cons_self c t)
  | p :: q :: rest =>
    obtain ⟨c, t, rfl⟩ := List.exists_cons_of_ne_nil (hne _ (List.mem_cons_self _ _))
    show ((c :: t) ++ '/' :: joinSlash (q :: rest)).head? ≠ some '/'
    simpa using hch _ (List.mem_cons_self _ _) c (List.mem_cons_self c t)

theorem joinSlash_last (ps : List (List Char)) (hps : ps ≠ [])
    (hne : ∀ p ∈ ps, p ≠ []) (hch : ∀ p ∈ ps, ∀ c ∈ p, c ≠ '/') :
    (joinSlash ps).getLast? ≠ some '/' := by
  match ps with
  | [p] =>
    show p.getLast? ≠ some '/'
    intro hl
    exact hch p (List.mem_singleton_self p) '/' (List.mem_of_getLast?_eq_some hl) rfl
  | p :: q :: rest =>
    show (p ++ '/' :: joinSlash (q :: rest)).getLast? ≠ some '/'
    have hrest : ('/' :: joinSlash (q :: rest)) ≠ [] := by simp
    rw [List.getLast?_append_of_ne_nil _ hrest]
    have hq : joinSlash (q :: rest) ≠ [] :=
      joinSlash_ne_nil _ (by simp) (fun r hr => hne r (List.mem_cons_of_mem p hr))
    obtain ⟨j, js, hj⟩ := List.exists_cons_of_ne_nil hq
    rw [hj, List.getLast?_cons_cons, ← hj]
    exact joinSlash_last (q :: rest) (by simp)
      (fun r hr => hne r (List.mem_cons_of_mem p hr))
      (fun r hr => hch r (List.mem_cons_of_mem p hr))

theorem stripTrailingSlash_shape (c : Char) (t : List Char) (hc : c ≠ '/')
    (hds : hasDoubleSlash ('/' :: c :: t) = false) :
    ∃ t2, stripTrailingSlash ('/' :: c :: t) = '/' :: c :: t2 ∧
      (stripTrailingSlash ('/' :: c :: t)).getLast? ≠ some '/' := by
  by_cases hl : (c :: t).getLast? = some '/'
  · have hl' : ('/' :: c :: t).getLast? = some '/' := by
      rw [List.getLast?_cons_cons]; exact hl
    have hlast := hds_last_two _ hds hl'
    rw [show stripTrailingSlash ('/' :: c :: t) = ('/' :: c :: t).dropLast from by
      unfold stripTrailingSlash
      rw [if_pos (by simp [hl'])]]
    cases t with
    | nil => exact absurd (by simpa using hl) hc
    | cons d t2 =>
      exact ⟨(d :: t2).dropLast, by simp [List.dropLast_cons₂], hlast⟩
  · have hl' : ¬ ('/' :: c :: t).getLast? = some '/' := by
      rw [List.getLast?_cons_cons]; exact hl
    rw [show stripTrailingSlash ('/' :: c :: t) = '/' :: c :: t from by
      unfold stripTrailingSlash
      rw [if_neg (by simpa using hl')]]
    exact ⟨t, rfl, hl'⟩

theorem normalizePathPrefix_shape (pp : List Char)
    (hds : hasDoubleSlash pp = false) :
    normalizePathPrefix pp = [] ∨
    ∃ c t, normalizePathPrefix pp = '/' :: c :: t ∧ c ≠ '/' ∧
      (normalizePathPrefix pp).getLast? ≠ some '/' := by
  cases pp with
  | nil => exact Or.inl rfl
  | cons x xs =>
    by_cases hx : x = '/'
    · subst hx
      have ha : normalizePathPrefix ('/' :: xs) = stripTrailingSlash ('/' :: xs) := by
        simp [normalizePathPrefix]
      cases xs with
      | nil => exact Or.inl (by simp [normalizePathPrefix, stripTrailingSlash])
      | cons y ys =>
        have hy : y ≠ '/' := by simpa using hds_cons_slash _ hds
        rw [ha]
        obtain ⟨t2, h1, h2⟩ := stripTrailingSlash_shape y ys hy hds
        exact Or.inr ⟨y, t2, h1, hy, h2⟩
    · have ha : normalizePathPrefix (x :: xs) = stripTrailingSlash ('/' :: x :: xs) := by
        simp [normalizePathPrefix, hx]
      have hds2 : hasDoubleSlash ('/' :: x :: xs) = false := by
        simp [hasDoubleSlash, hx, hds]
      rw [ha]
      obtain ⟨t2, h1, h2⟩ := stripTrailingSlash_shape x xs hx hds2
      exact Or.inr ⟨x, t2, h1, hx, h2⟩

theorem normalizeSegment_of_empty (frontPage pp1 : List Char) (hpp : pp1 ≠ []) :
    normalizeSegment frontPage [] pp1 = [] := by
  have hppe : pp1.isEmpty = false := by simpa [List.isEmpty_iff] using hpp
  simp [normalizeSegment, stripTrailingSlash, hppe]

theorem normalizeSegment_of_joined (frontPage pp1 joined : List Char)
    (hne : joined ≠ []) (hhead : joined.head? ≠ some '/')
    (hlast : joined.getLast? ≠ some '/') :
    normalizeSegment frontPage joined pp1 = '/' :: joined ∧
      ('/' :: joined).getLast? ≠ some '/' := by
  have hje : joined.isEmpty = false := by simpa [List.isEmpty_iff] using hne
  have hlast2 : ('/' :: joined).getLast? = joined.getLast? := by
    obtain ⟨j, js, rfl⟩ := List.exists_cons_of_ne_nil hne
    exact List.getLast?_cons_cons
  refine ⟨?_, hlast2 ▸ hlast⟩
  have hb : (joined.head? == some '/') = false := by simpa using hhead
  simp [normalizeSegment, stripTrailingSlash, hje, hb, hlast2, hlast]

/-- The path-shape invariant of claim C6: exactly one leading slash and no
trailing slash, except for the root path `/`. -/
def goodPath (r : List Char) : Prop :=
  (r.head? = some '/' ∧ (r.drop 1).head? ≠ some '/' ∧ r.getLast? ≠ some '/') ∨ r = ['/']

instance (r : List Char) : Decidable (goodPath r) := by
  unfold goodPath
  infer_instance

/-- The well-formedness hypothesis of the amended claim C6 on the segment
argument: a list segment has no empty parts (a string segment is
unrestricted). -/
def Segment.wf : Segment → Prop
  | .str _ => True
  | .arr l => ∀ p ∈ l, p ≠ []

theorem addLocalePrefix_good (path : List Char)
    (locale defaultLocale : Option (List Char))
    (hloc : ∀ l, locale = some l → l.head? ≠ some '/')
    (hQ : ∃ c t, path = '/' :: c :: t ∧ c ≠ '/' ∧ path.getLast? ≠ some '/') :
    goodPath (addLocalePrefix path locale defaultLocale) := by
  obtain ⟨c, t, rfl, hc, hlast⟩ := hQ
  cases locale with
  | none =>
    rw [show addLocalePrefix ('/' :: c :: t) none defaultLocale = '/' :: c :: t from by
      simp [addLocalePrefix]]
    exact Or.inl ⟨rfl, by simpa using hc, hlast⟩
  | some l =>
    have hform : addLocalePrefix ('/' :: c :: t) (some l) defaultLocale
        = if (!l.isEmpty && !(('/' :: l).isPrefixOf ('/' :: c :: t))
              && (some l != defaultLocale))
          then ('/' :: l) ++ ('/' :: c :: t) else ('/' :: c :: t) := rfl
    rcases haddP : (!l.isEmpty && !(('/' :: l).isPrefixOf ('/' :: c :: t))
        && (some l != defaultLocale)) with _ | _
    · rw [hform, if_neg (by rw [haddP]; exact Bool.false_ne_true)]
      exact Or.inl ⟨rfl, by simpa using hc, hlast⟩
    · rw [hform, if_pos (by rw [haddP])]
      have hl : l ≠ [] := by
        intro hnil
        rw [hnil] at haddP
        simp at haddP
      obtain ⟨c0, l', rfl⟩ := List.exists_cons_of_ne_nil hl
      have hc0 : c0 ≠ '/' := by simpa using hloc _ rfl
      refine Or.inl ⟨rfl, by simpa using hc0, ?_⟩
      rw [List.getLast?_append_of_ne_nil _ (by simp : ('/' :: c :: t) ≠ [])]
      exact hlast

theorem append_shape (pp seg : List Char)
    (hpp : pp = [] ∨ ∃ c t, pp = '/' :: c :: t ∧ c ≠ '/' ∧ pp.getLast? ≠ some '/')
    (hseg : seg = [] ∨ ∃ c t, seg = '/' :: c :: t ∧ c ≠ '/' ∧ seg.getLast? ≠ some '/')
    (hne : ¬(pp = [] ∧ seg = [])) :
    ∃ c t, pp ++ seg = '/' :: c :: t ∧ c ≠ '/' ∧ (pp ++ seg).getLast? ≠ some '/' := by
  rcases hpp with rfl | ⟨c, t, rfl, hc, hl⟩
  · rcases hseg with rfl | ⟨c, t, rfl, hc, hl⟩
    · exact absurd ⟨rfl, rfl⟩ hne
    · exact ⟨c, t, by simp, hc, by simpa using hl⟩
  · rcases hseg with rfl | ⟨c', t', rfl, hc', hl'⟩
    · exact ⟨c, t, by simp, hc, by simpa using hl⟩
    · refine ⟨c, t ++ '/' :: c' :: t', by simp, hc, ?_⟩
      rw [List.getLast?_append_of_ne_nil _ (by simp : ('/' :: c' :: t') ≠ [])]
      exact hl'

/-! ## Claims -/

/-- C1: `getAuthorizationHeader` dispatches on the first matching rule of
the fixed precedence: username+password give `"Basic " ++ base64`;
otherwise clientId+clientSecret delegate to the token flow and give
`"Bearer " ++ access_token`; otherwise access_token+token_type give
`token_type ++ " " ++ access_token`; otherwise a string is used verbatim; a
callback is invoked with no arguments; and when nothing matches (in
particular when auth is absent) the call throws a configuration error and
issues no network request. -/
theorem claimC1_authorizationHeader_dispatch (baseUrl : String) (now : Int)
    (st : TokenState) (sat : Option AccessToken) (selfAuth : Option NextDrupalAuth)
    (tresp : Response) :
    (∀ a u p, a.username = some u → a.password = some p →
      getAuthorizationHeader baseUrl now st sat selfAuth tresp (some (.obj a))
        = (.ok ("Basic " ++ base64Encode (u ++ ":" ++ p)), st, 0)) ∧
    (∀ a, (a.username = none ∨ a.password = none) →
      a.clientId.isSome → a.clientSecret.isSome →
      ∀ tok st' n s,
        getAccessToken baseUrl now st sat selfAuth (some a) tresp = (.ok tok, st', n) →
        tok.access_token = some s →
        getAuthorizationHeader baseUrl now st sat selfAuth tresp (some (.obj a))
          = (.ok ("Bearer " ++ s), st', n)) ∧
    (∀ a tt av, (a.username = none ∨ a.password = none) →
      (a.clientId = none ∨ a.clientSecret = none) →
      a.access_token = some av → a.token_type = some tt →
      getAuthorizationHeader baseUrl now st sat selfAuth tresp (some (.obj a))
        = (.ok (tt ++ " " ++ av), st, 0)) ∧
    (∀ s, getAuthorizationHeader baseUrl now st sat selfAuth tresp (some (.str s))
      = (.ok s, st, 0)) ∧
    (∀ f, getAuthorizationHeader baseUrl now st sat selfAuth tresp (some (.func f))
      = (.ok (f ()), st, 0)) ∧
    (∀ a, (a.username = none ∨ a.password = none) →
      (a.clientId = none ∨ a.clientSecret = none) →
      (a.access_token = none ∨ a.token_type = none) →
      getAuthorizationHeader baseUrl now st sat selfAuth tresp (some (.obj a))
        = (.error (.configError
            "auth is not configured. See https://next-drupal.org/docs/client/auth"),
           st, 0)) ∧
    (getAuthorizationHeader baseUrl now st sat selfAuth tresp none
      = (.error (.configError
          "auth is not configured. See https://next-drupal.org/docs/client/auth"),
         st, 0)) := by
  refine ⟨?_, ?_, ?_, ?_, ?_, ?_, ?_⟩
  · intro a u p hu hp
    simp [getAuthorizationHeader, isBasicAuth, hu, hp]
  · intro a hnb hid hsec tok st' n s hga hs
    rcases hnb with h | h <;>
      simp [getAuthorizationHeader, isBasicAuth, isClientIdSecretAuth, h, hid, hsec, hga, hs]
  · intro a tt av hnb hnc hav htt
    rcases hnb with h | h <;> rcases hnc with h' | h' <;>
      simp [getAuthorizationHeader, isBasicAuth, isClientIdSecretAuth, isAccessTokenAuth,
        h, h', hav, htt]
  · intro s; rfl
  · intro f; rfl
  · intro a hnb hnc hna
    rcases hnb with h | h <;> rcases hnc with h' | h' <;> rcases hna with h'' | h'' <;>
      simp [getAuthorizationHeader, isBasicAuth, isClientIdSecretAuth, isAccessTokenAuth,
        h, h', h'']
  · rfl

/-- C1 witness: the basic-auth rule at username `"a"`, password `"b"` gives
exactly `"Basic YTpi"`, and an absent auth throws the configuration error
with no request. -/
theorem claimC1_witness :
    getAuthorizationHeader "https://example.com" 0 {} none none
      { ok := true, status := 200 } (some (.obj { username := some "a", password := some "b" }))
      = (.ok "Basic YTpi", {}, 0) ∧
    getAuthorizationHeader "https://example.com" 0 {} none none
      { ok := true, status := 200 } none
      = (.error (.configError
          "auth is not configured. See https://next-drupal.org/docs/client/auth"),
         {}, 0) := by
  have h := claimC1_authorizationHeader_dispatch "https://example.com" 0 {} none none
    { ok := true, status := 200 }
  exact ⟨((h.1 { username := some "a", password := some "b" } "a" "b" rfl rfl).trans
      (by decide)), h.2.2.2.2.2.2⟩

/-- A cache miss issues exactly one token-endpoint request, whatever the
response. -/
theorem getAccessTokenFetch_count (now : Int) (st : TokenState) (auth : AuthObj)
    (tresp : Response) : (getAccessTokenFetch now st auth tresp).2.2 = 1 := by
  cases h : throwIfJsonErrors tresp tokenErrorPrefix with
  | error e => simp [getAccessTokenFetch, h]
  | ok u => cases hb : tresp.body <;> simp [getAccessTokenFetch, h, hb]

/-- On a non-ok token response the fetch tail throws exactly the translated
error and leaves the cache state untouched. -/
theorem getAccessTokenFetch_notOk (now : Int) (st : TokenState) (auth : AuthObj)
    (tresp : Response) (h : tresp.ok = false) :
    ∃ e, getAccessTokenFetch now st auth tresp = (.error e, st, 1) ∧
      throwIfJsonErrors tresp tokenErrorPrefix = .error e := by
  have he : ∃ e, throwIfJsonErrors tresp tokenErrorPrefix = .error e := by
    unfold throwIfJsonErrors
    cases hg : getErrorsFromResponse tresp <;> simp [h, hg]
  obtain ⟨e, he⟩ := he
  exact ⟨e, by simp [getAccessTokenFetch, he], he⟩

/-- The cache-reuse condition as claim C2 states it: a token is cached, the
current time is strictly before the cached expiry (false against an absent
expiry), and the cached request's `clientId`, `clientSecret` and `scope`
each equal the current request's (an absent cached record's field is the
absent value). -/
def tokenCacheHit (st : TokenState) (now : Int) (c : AuthObj) : Prop :=
  st.token.isSome = true ∧
  (match st.tokenExpiresOn with | some e => now < e | none => False) ∧
  st.tokenRequestDetails.bind (fun d => d.clientId) = c.clientId ∧
  st.tokenRequestDetails.bind (fun d => d.clientSecret) = c.clientSecret ∧
  st.tokenRequestDetails.bind (fun d => d.scope) = c.scope

/-- The model's boolean freshness test agrees with the claim's condition
(minus the token-presence conjunct). -/
theorem tokenCacheFresh_iff (st : TokenState) (now : Int) (a : AuthObj) :
    tokenCacheFresh st now a = true ↔
      ((match st.tokenExpiresOn with | some e => now < e | none => False) ∧
       st.tokenRequestDetails.bind (fun d => d.clientId) = a.clientId ∧
       st.tokenRequestDetails.bind (fun d => d.clientSecret) = a.clientSecret ∧
       st.tokenRequestDetails.bind (fun d => d.scope) = a.scope) := by
  cases h : st.tokenExpiresOn <;> simp [tokenCacheFresh, h, and_assoc]

/-- C2: for a client without a pre-supplied `accessToken`, `getAccessToken`
returns the cached token unchanged with zero requests exactly when the
claim's reuse condition holds, and otherwise issues exactly one token
request. -/
theorem claimC2_token_cache_reuse (baseUrl : String) (now : Int) (st : TokenState)
    (selfAuth : Option NextDrupalAuth) (c : AuthObj) (tresp : Response)
    (hid : c.clientId.isSome = true) (hsec : c.clientSecret.isSome = true) :
    (tokenCacheHit st now c →
      ∃ t, st.token = some t ∧
        getAccessToken baseUrl now st none selfAuth (some c) tresp = (.ok t, st, 0)) ∧
    (¬ tokenCacheHit st now c →
      (getAccessToken baseUrl now st none selfAuth (some c) tresp).2.2 = 1) := by
  have hres : resolveTokenAuth selfAuth (some c)
      = .ok { c with url := some (c.url.getD DEFAULT_AUTH_URL) } := by
    simp [resolveTokenAuth, isClientIdSecretAuthObj, hid, hsec]
  constructor
  · rintro ⟨htok, hexp, h1, h2, h3⟩
    obtain ⟨t, ht⟩ := Option.isSome_iff_exists.mp htok
    have hf : tokenCacheFresh st now { c with url := some (c.url.getD DEFAULT_AUTH_URL) }
        = true := (tokenCacheFresh_iff st now _).mpr ⟨hexp, h1, h2, h3⟩
    exact ⟨t, ht, by simp [getAccessToken, hres, ht, hf]⟩
  · intro hmiss
    cases ht : st.token with
    | none => simp [getAccessToken, hres, ht, getAccessTokenFetch_count]
    | some t =>
      cases hf : tokenCacheFresh st now { c with url := some (c.url.getD DEFAULT_AUTH_URL) } with
      | true =>
        exact absurd ⟨by simp [ht], (tokenCacheFresh_iff st now _).mp hf⟩ hmiss
      | false =>
        simp [getAccessToken, hres, ht, hf, getAccessTokenFetch_count]

/-- C2 witness: with a future expiry and matching parameters the cached
token is returned with zero requests; with only the scope changed, exactly
one request is issued. -/
theorem claimC2_witness :
    (∃ t,
      (({ token := some { access_token := some "T" }, tokenExpiresOn := some 100,
          tokenRequestDetails := some { clientId := some "c", clientSecret := some "s" } }
          : TokenState)).token = some t ∧
      getAccessToken "https://example.com" 50
        { token := some { access_token := some "T" }, tokenExpiresOn := some 100,
          tokenRequestDetails := some { clientId := some "c", clientSecret := some "s" } }
        none none (some { clientId := some "c", clientSecret := some "s" })
        { ok := true, status := 200 }
        = (.ok t,
           { token := some { access_token := some "T" }, tokenExpiresOn := some 100,
             tokenRequestDetails := some { clientId := some "c", clientSecret := some "s" } },
           0)) ∧
    (getAccessToken "https://example.com" 50
        { token := some { access_token := some "T" }, tokenExpiresOn := some 100,
          tokenRequestDetails := some { clientId := some "c", clientSecret := some "s" } }
        none none
        (some { clientId := some "c", clientSecret := some "s", scope := some "extra" })
        { ok := true, status := 200 }).2.2 = 1 := by
  refine ⟨(claimC2_token_cache_reuse "https://example.com" 50 _ none
      { clientId := some "c", clientSecret := some "s" } { ok := true, status := 200 }
      rfl rfl).1 ⟨rfl, by decide, rfl, rfl, rfl⟩,
    (claimC2_token_cache_reuse "https://example.com" 50 _ none
      { clientId := some "c", clientSecret := some "s", scope := some "extra" }
      { ok := true, status := 200 } rfl rfl).2 ?_⟩
  rintro ⟨-, -, -, -, hscope⟩
  exact Option.noConfusion hscope

/-- C3: when the token endpoint answers with a non-success response,
`getAccessToken` leaves the cached token, expiry and stored request
parameters exactly as they were, and every call that did issue the request
throws the translated error. -/
theorem claimC3_failed_fetch_preserves_cache (baseUrl : String) (now : Int)
    (st : TokenState) (sat : Option AccessToken) (selfAuth : Option NextDrupalAuth)
    (cis : Option AuthObj) (tresp : Response) (hok : tresp.ok = false) :
    (getAccessToken baseUrl now st sat selfAuth cis tresp).2.1 = st ∧
    ((getAccessToken baseUrl now st sat selfAuth cis tresp).2.2 = 1 →
      ∃ e, (getAccessToken baseUrl now st sat selfAuth cis tresp).1 = .error e ∧
        throwIfJsonErrors tresp tokenErrorPrefix = .error e) := by
  cases sat with
  | some t => simp [getAccessToken]
  | none =>
    cases hres : resolveTokenAuth selfAuth cis with
    | error e => simp [getAccessToken, hres]
    | ok auth =>
      obtain ⟨e, he1, he2⟩ := getAccessTokenFetch_notOk now st auth tresp hok
      cases ht : st.token with
      | none => exact ⟨by simp [getAccessToken, hres, ht, he1], fun _ =>
          ⟨e, by simp [getAccessToken, hres, ht, he1], he2⟩⟩
      | some t =>
        cases hf : tokenCacheFresh st now auth with
        | true => simp [getAccessToken, hres, ht, hf]
        | false => exact ⟨by simp [getAccessToken, hres, ht, hf, he1], fun _ =>
            ⟨e, by simp [getAccessToken, hres, ht, hf, he1], he2⟩⟩

/-- C3 witness: a 401 token response leaves a populated cache untouched and
surfaces the translated error. -/
theorem claimC3_witness :
    ((getAccessToken "https://example.com" 500
        { token := some { access_token := some "T" }, tokenExpiresOn := some 100,
          tokenRequestDetails := some { clientId := some "c", clientSecret := some "s" } }
        none none (some { clientId := some "c", clientSecret := some "s" })
        { ok := false, status := 401, statusText := "Unauthorized" }).2.1
      = { token := some { access_token := some "T" }, tokenExpiresOn := some 100,
          tokenRequestDetails := some { clientId := some "c", clientSecret := some "s" } }) ∧
    ((getAccessToken "https://example.com" 500
        { token := some { access_token := some "T" }, tokenExpiresOn := some 100,
          tokenRequestDetails := some { clientId := some "c", clientSecret := some "s" } }
        none none (some { clientId := some "c", clientSecret := some "s" })
        { ok := false, status := 401, statusText := "Unauthorized" }).2.2 = 1 →
      ∃ e, (getAccessToken "https://example.com" 500
        { token := some { access_token := some "T" }, tokenExpiresOn := some 100,
          tokenRequestDetails := some { clientId := some "c", clientSecret := some "s" } }
        none none (some { clientId := some "c", clientSecret := some "s" })
        { ok := false, status := 401, statusText := "Unauthorized" }).1 = .error e ∧
        throwIfJsonErrors { ok := false, status := 401, statusText := "Unauthorized" }
          tokenErrorPrefix = .error e) :=
  claimC3_failed_fetch_preserves_cache "https://example.com" 500 _ none none _ _ rfl

/-- C4 counterexample: the claim says that on a parse failure the thrown
error carries the response's `statusText` as detail; but on a non-ok
`application/json` response whose body is not valid JSON,
`throwIfJsonErrors` propagates the parse rejection of `response.json()`
instead of a translated error carrying the statusText. -/
theorem claimC4_counterexample :
    throwIfJsonErrors
      { ok := false, status := 500, statusText := "Server Error",
        contentType := some "application/json", body := none } "oops: "
      = .error .syntaxError ∧
    throwIfJsonErrors
      { ok := false, status := 500, statusText := "Server Error",
        contentType := some "application/json", body := none } "oops: "
      ≠ .error (.jsonApiErrors (.text "Server Error") 500 "oops: ") := by
  exact ⟨rfl, by decide⟩

/-- The detail rule of (amended) claim C4 for a response whose body parses:
the body's non-empty `message` under content-type `application/json`, the
body's non-empty `errors` list under `application/vnd.api+json`, and the
response's `statusText` in every other case. -/
def claimedErrorDetail (r : Response) (b : JsonBody) : ErrorDetail :=
  if r.contentType == some "application/json" then
    match b.message with
    | some m => if m != "" then .text m else .text r.statusText
    | none => .text r.statusText
  else if r.contentType == some "application/vnd.api+json" then
    match b.errors with
    | some es => if !es.isEmpty then .errorList es else .text r.statusText
    | none => .text r.statusText
  else .text r.statusText

/-- C4 (amended): `throwIfJsonErrors` returns normally exactly when the
response is ok; on a non-ok response with a parseable body it throws the
error carrying the message prefix, the response status and the claimed
detail; on a non-ok response without a parseable body it throws that same
translated error when the content-type is neither JSON content-type, and
propagates the parse rejection when it is one of the two. -/
theorem claimC4_throwIfJsonErrors_amended (r : Response) (p : String) :
    (throwIfJsonErrors r p = .ok () ↔ r.ok = true) ∧
    (r.ok = false → ∀ b, r.body = some b →
      throwIfJsonErrors r p = .error (.jsonApiErrors (claimedErrorDetail r b) r.status p)) ∧
    (r.ok = false → r.body = none →
      r.contentType ≠ some "application/json" →
      r.contentType ≠ some "application/vnd.api+json" →
      throwIfJsonErrors r p = .error (.jsonApiErrors (.text r.statusText) r.status p)) ∧
    (r.ok = false → r.body = none →
      (r.contentType = some "application/json" ∨
       r.contentType = some "application/vnd.api+json") →
      throwIfJsonErrors r p = .error .syntaxError) := by
  refine ⟨?_, ?_, ?_, ?_⟩
  · cases hok : r.ok with
    | true => simp [throwIfJsonErrors, hok]
    | false =>
      simp only [throwIfJsonErrors, hok, Bool.not_false, if_true]
      cases hg : getErrorsFromResponse r <;> simp
  · intro hok b hb
    have hg : getErrorsFromResponse r = .ok (claimedErrorDetail r b) := by
      unfold getErrorsFromResponse claimedErrorDetail
      rcases hct : r.contentType == some "application/json" with _ | _
      · rcases hct2 : r.contentType == some "application/vnd.api+json" with _ | _
        · simp [hct, hct2]
        · cases hbe : b.errors with
          | none => simp [hct, hct2, hb, hbe]
          | some es => by_cases hes : es = [] <;> simp [hct, hct2, hb, hbe, hes]
      · cases hbm : b.message with
        | none => simp [hct, hb, hbm]
        | some m => by_cases hm : m = "" <;> simp [hct, hb, hbm, hm]
    simp [throwIfJsonErrors, hok, hg]
  · intro hok hb h1 h2
    have hg : getErrorsFromResponse r = .ok (.text r.statusText) := by
      simp [getErrorsFromResponse, h1, h2]
    simp [throwIfJsonErrors, hok, hg]
  · intro hok hb hct
    have hg : getErrorsFromResponse r = .error .syntaxError := by
      unfold getErrorsFromResponse
      rcases hct with h | h <;> simp [h, hb]
    simp [throwIfJsonErrors, hok, hg]

/-- C4 witness: the claim's own instance, a 422 `application/vnd.api+json`
response with body `{errors: [{title: "Invalid"}]}`, raises the error whose
detail is that list and whose status is 422. -/
theorem claimC4_witness :
    throwIfJsonErrors
      { ok := false, status := 422, statusText := "Unprocessable Entity",
        contentType := some "application/vnd.api+json",
        body := some { errors := some [{ title := some "Invalid" }] } } "err: "
      = .error (.jsonApiErrors (.errorList [{ title := some "Invalid" }]) 422 "err: ") := by
  have h := (claimC4_throwIfJsonErrors_amended
    { ok := false, status := 422, statusText := "Unprocessable Entity",
      contentType := some "application/vnd.api+json",
      body := some { errors := some [{ title := some "Invalid" }] } } "err: ").2.1
    rfl { errors := some [{ title := some "Invalid" }] } rfl
  exact h.trans (by decide)

/-- C5: `buildUrl` on base `https://example.com` serializes `/foo` with
`{bar: "baz"}` to exactly `https://example.com/foo?bar=baz`, and a
bracket-nested key is percent-encoded in place (`fields%5Bnode--article%5D
=title%2Cpath`), not flattened. -/
theorem claimC5_buildUrl_serialization :
    (buildUrl "https://example.com" "/foo" (some [("bar", "baz")])).toStr
      = "https://example.com/foo?bar=baz" ∧
    (buildUrl "https://example.com" "/jsonapi/node/article"
        (some [("fields[node--article]", "title,path")])).search
      = "fields%5Bnode--article%5D=title%2Cpath" := by decide

/-- C9: `validateDraftUrl` never propagates a failure of the underlying
fetch: a thrown error of any kind is converted into a synthesized status
401 response whose JSON body is `{message: error.message}`, and a resolved
response is returned unchanged. -/
theorem claimC9_validateDraftUrl_absorbs_errors :
    (∀ e : JsError, validateDraftUrl (.error e)
      = { ok := false, status := 401, statusText := "",
          contentType := some "text/plain;charset=UTF-8",
          body := some { message := some e.message } }) ∧
    (∀ r : Response, validateDraftUrl (.ok r) = r) :=
  ⟨fun _ => rfl, fun _ => rfl⟩

/-- C10: when `withAuth` is truthy and the auth resolution succeeds, the
dispatched request's `Authorization` header is exactly the resolved value —
it overwrites any caller-supplied `Authorization`, because the resolution
sets the key after the instance/per-call merge. -/
theorem claimC10_withAuth_overwrites_authorization (baseUrl : String)
    (instHeaders : List (String × String)) (selfAuth : Option NextDrupalAuth)
    (sat : Option AccessToken) (now : Int) (st : TokenState) (tresp : Response)
    (input : String) (opts : FetchOptions) (hv : String)
    (hw : withAuthTruthy opts.withAuth = true)
    (hah : (getAuthorizationHeader baseUrl now st sat selfAuth tresp
        (withAuthArg opts.withAuth selfAuth)).1 = .ok hv) :
    ∃ req, (fetchModel baseUrl instHeaders selfAuth sat now st tresp input opts).1
        = .ok req ∧
      hget req.headers "Authorization" = some hv := by
  rcases hg : getAuthorizationHeader baseUrl now st sat selfAuth tresp
      (withAuthArg opts.withAuth selfAuth) with ⟨res, st', n⟩
  rw [hg] at hah
  simp only at hah
  subst hah
  exact ⟨{ input := if jsStartsWith input "/" then baseUrl ++ input else input,
           credentials := "include",
           headers := hset ((mkHeaders (opts.headers.getD [])).foldl
             (fun h p => hset h p.1 p.2) (mkHeaders instHeaders)) "Authorization" hv },
         by simp [fetchModel, hw, hg], hget_hset_self _ _ _⟩

/-- C10 witness: a caller-supplied `Authorization: Caller` header is
overwritten by the resolved header of a string auth configuration. -/
theorem claimC10_witness :
    ∃ req, (fetchModel "https://example.com" [] none none 0 {}
        { ok := true, status := 200 } "/x"
        { headers := some [("Authorization", "Caller")],
          withAuth := some (.auth (.str "Custom")) }).1 = .ok req ∧
      hget req.headers "Authorization" = some "Custom" :=
  claimC10_withAuth_overwrites_authorization "https://example.com" [] none none 0 {}
    { ok := true, status := 200 } "/x"
    { headers := some [("Authorization", "Caller")],
      withAuth := some (.auth (.str "Custom")) } "Custom" rfl rfl

/-- C8 counterexample: the claim says the dispatched headers always equal
the instance/per-call merge; but a truthy `withAuth` adds an
`Authorization` header that is in neither. -/
theorem claimC8_counterexample :
    (fetchModel "https://example.com" [] none none 0 {} { ok := true, status := 200 }
        "/x" { withAuth := some (.auth (.str "Custom")) }).1
      = .ok { input := "https://example.com/x", credentials := "include",
              headers := [("authorization", "Custom")] } ∧
    hget [("authorization", "Custom")] "Authorization"
      ≠ firstSome (hget (mkHeaders []) "Authorization")
          (hget (mkHeaders []) "Authorization") := by decide

/-- C8 (amended): every dispatched request carries `credentials:
"include"` whatever the caller supplied; for every header name — except
`Authorization` on a call with truthy `withAuth` — the dispatched value is
the per-call value when present and the instance value otherwise
(case-insensitively); and a leading-`/` string input is rewritten against
the base URL while any other string input passes through unchanged. -/
theorem claimC8_fetch_request_shape_amended (baseUrl : String)
    (instHeaders : List (String × String)) (selfAuth : Option NextDrupalAuth)
    (sat : Option AccessToken) (now : Int) (st : TokenState) (tresp : Response)
    (input : String) (opts : FetchOptions) (req : DispatchedRequest)
    (hreq : (fetchModel baseUrl instHeaders selfAuth sat now st tresp input opts).1
      = .ok req) :
    req.credentials = "include" ∧
    (∀ k, (withAuthTruthy opts.withAuth = false ∨ lowerStr k ≠ "authorization") →
      hget req.headers k
        = firstSome (hget (mkHeaders (opts.headers.getD [])) k)
            (hget (mkHeaders instHeaders) k)) ∧
    (jsStartsWith input "/" = true → req.input = baseUrl ++ input) ∧
    (jsStartsWith input "/" = false → req.input = input) := by
  have hmerge : ∀ k, hget ((mkHeaders (opts.headers.getD [])).foldl
      (fun h p => hset h p.1 p.2) (mkHeaders instHeaders)) k
        = firstSome (hget (mkHeaders (opts.headers.getD [])) k)
            (hget (mkHeaders instHeaders) k) :=
    fun k => hget_foldl_hset _ _ k (mkHeaders_wf _)
  by_cases hw : withAuthTruthy opts.withAuth = true
  · rcases hg : getAuthorizationHeader baseUrl now st sat selfAuth tresp
        (withAuthArg opts.withAuth selfAuth) with ⟨res, st', n⟩
    cases res with
    | error e =>
      have hfe : (fetchModel baseUrl instHeaders selfAuth sat now st tresp input opts).1
          = .error e := by simp [fetchModel, hw, hg]
      rw [hreq] at hfe
      exact Except.noConfusion hfe
    | ok hv =>
      have hfm : (fetchModel baseUrl instHeaders selfAuth sat now st tresp input opts).1
          = .ok { input := if jsStartsWith input "/" then baseUrl ++ input else input,
                  credentials := "include",
                  headers := hset ((mkHeaders (opts.headers.getD [])).foldl
                    (fun h p => hset h p.1 p.2) (mkHeaders instHeaders))
                    "Authorization" hv } := by
        simp [fetchModel, hw, hg]
      rw [hreq] at hfm
      obtain rfl := Except.ok.inj hfm
      refine ⟨rfl, ?_, ?_, ?_⟩
      · intro k hk
        rcases hk with hk | hk
        · rw [hw] at hk; exact Bool.noConfusion hk
        · show hget (hset _ "Authorization" hv) k = _
          rw [hget_hset,
            if_neg (fun hh => hk (hh.trans (by decide : lowerStr "Authorization"
              = "authorization"))), hmerge k]
      · intro hi; show (if jsStartsWith input "/" then baseUrl ++ input else input) = _
        rw [if_pos hi]
      · intro hi; show (if jsStartsWith input "/" then baseUrl ++ input else input) = _
        rw [if_neg (by simp [hi])]
  · have hfm : (fetchModel baseUrl instHeaders selfAuth sat now st tresp input opts).1
        = .ok { input := if jsStartsWith input "/" then baseUrl ++ input else input,
                credentials := "include",
                headers := (mkHeaders (opts.headers.getD [])).foldl
                  (fun h p => hset h p.1 p.2) (mkHeaders instHeaders) } := by
      simp [fetchModel, hw]
    rw [hreq] at hfm
    obtain rfl := Except.ok.inj hfm
    refine ⟨rfl, fun k _ => hmerge k, ?_, ?_⟩
    · intro hi; show (if jsStartsWith input "/" then baseUrl ++ input else input) = _
      rw [if_pos hi]
    · intro hi; show (if jsStartsWith input "/" then baseUrl ++ input else input) = _
      rw [if_neg (by simp [hi])]

/-- C8 witness: a concrete call without auth — a per-call `accept`
overrides the instance `Accept` case-insensitively, the untouched instance
header survives, credentials are forced and the relative input is
rewritten. -/
theorem claimC8_witness :
    ({ input := "https://example.com/foo", credentials := "include",
       headers := [("accept", "text/html"), ("x-keep", "1")] }
        : DispatchedRequest).credentials = "include" ∧
    (∀ k, (withAuthTruthy (none : Option WithAuthOption) = false ∨
        lowerStr k ≠ "authorization") →
      hget ([("accept", "text/html"), ("x-keep", "1")] : HeadersMap) k
        = firstSome (hget (mkHeaders [("accept", "text/html")]) k)
            (hget (mkHeaders [("Accept", "application/json"), ("X-Keep", "1")]) k)) ∧
    (jsStartsWith "/foo" "/" = true →
      ({ input := "https://example.com/foo", credentials := "include",
         headers := [("accept", "text/html"), ("x-keep", "1")] }
          : DispatchedRequest).input = "https://example.com" ++ "/foo") ∧
    (jsStartsWith "/foo" "/" = false →
      ({ input := "https://example.com/foo", credentials := "include",
         headers := [("accept", "text/html"), ("x-keep", "1")] }
          : DispatchedRequest).input = "/foo") := by
  have h := claimC8_fetch_request_shape_amended "https://example.com"
    [("Accept", "application/json"), ("X-Keep", "1")] none none 0 {}
    { ok := true, status := 200 } "/foo"
    { headers := some [("accept", "text/html")] }
    { input := "https://example.com/foo", credentials := "include",
      headers := [("accept", "text/html"), ("x-keep", "1")] } (by decide)
  exact h

/-- C7 counterexample: the claim says a path whose first segment merely
starts with the locale string (path `/enchanted`, locale `en`) still
receives the prefix; but the code's check is a plain string-prefix test, so
`addLocalePrefix` returns `/enchanted` unprefixed, not `/en/enchanted`. -/
theorem claimC7_counterexample :
    addLocalePrefix "/enchanted".toList (some "en".toList) (some "fr".toList)
      = "/enchanted".toList ∧
    addLocalePrefix "/enchanted".toList (some "en".toList) (some "fr".toList)
      ≠ "/en/enchanted".toList := by decide

/-- C7 (amended): `addLocalePrefix` prepends `/locale` exactly when the
locale is truthy, differs from `defaultLocale`, and the (slash-normalized)
path does not start with the string `"/" ++ locale` — so `/enchanted` with
locale `en` does not receive the prefix; consequently
`constructPathFromSegment "about"` with locale `fr`/default `en` returns
`/fr/about`, and with locale equal to defaultLocale returns `/about`. -/
theorem claimC7_addLocalePrefix_amended (path : List Char)
    (locale defaultLocale : Option (List Char)) :
    (∀ l, locale = some l → l ≠ [] →
      ('/' :: l).isPrefixOf (if path.head? == some '/' then path else '/' :: path)
        = false →
      some l ≠ defaultLocale →
      addLocalePrefix path locale defaultLocale
        = ('/' :: l) ++ (if path.head? == some '/' then path else '/' :: path)) ∧
    ((locale = none ∨ locale = some [] ∨ locale = defaultLocale ∨
      (∃ l, locale = some l ∧
        ('/' :: l).isPrefixOf (if path.head? == some '/' then path else '/' :: path)
          = true)) →
      addLocalePrefix path locale defaultLocale
        = (if path.head? == some '/' then path else '/' :: path)) ∧
    constructPathFromSegment "/home".toList (.str "about".toList)
      { locale := some "fr".toList, defaultLocale := some "en".toList }
      = "/fr/about".toList ∧
    (∀ loc, constructPathFromSegment "/home".toList (.str "about".toList)
      { locale := loc, defaultLocale := loc } = "/about".toList) := by
  refine ⟨?_, ?_, by decide, ?_⟩
  · intro l hl hne hpre hdiff
    subst hl
    simp only [beq_iff_eq] at hpre
    simp [addLocalePrefix, hpre, hne, hdiff]
  · intro hcase
    rcases hcase with h | h | h | ⟨l, hl, hpre⟩
    · simp [addLocalePrefix, h]
    · simp [addLocalePrefix, h]
    · cases locale with
      | none => simp [addLocalePrefix]
      | some l => simp [addLocalePrefix, ← h]
    · subst hl
      simp only [beq_iff_eq] at hpre
      simp [addLocalePrefix, hpre]
  · intro loc
    have h1 : constructPathFromSegment "/home".toList (.str "about".toList)
        { locale := loc, defaultLocale := loc }
        = addLocalePrefix "/about".toList loc loc := rfl
    rw [h1]
    cases loc with
    | none => decide
    | some l => simp [addLocalePrefix]

/-- C7 witness: `/about` with locale `fr`/default `en` receives the prefix
(`/fr/about`), and `/enchanted` with locale `en` keeps its path because the
string-prefix test fires. -/
theorem claimC7_witness :
    addLocalePrefix "/about".toList (some "fr".toList) (some "en".toList)
      = "/fr/about".toList ∧
    addLocalePrefix "/enchanted".toList (some "en".toList) (some "fr".toList)
      = "/enchanted".toList := by
  have h1 := (claimC7_addLocalePrefix_amended "/about".toList (some "fr".toList)
    (some "en".toList)).1 "fr".toList rfl (by decide) (by decide) (by decide)
  have h2 := (claimC7_addLocalePrefix_amended "/enchanted".toList (some "en".toList)
    (some "fr".toList)).2.1 (Or.inr (Or.inr (Or.inr ⟨"en".toList, rfl, by decide⟩)))
  exact ⟨h1.trans (by decide), h2.trans (by decide)⟩

/-- C6 counterexample: the claim quantifies over every segment, but a list
segment with empty parts produces a trailing slash — `["a", "", ""]` with
no options yields `/a/`, which is neither `"/"` nor free of a trailing
slash. -/
theorem claimC6_counterexample :
    constructPathFromSegment "/home".toList (.arr ["a".toList, [], []]) {}
      = "/a/".toList ∧ ¬ goodPath "/a/".toList := by decide

/-- C6 (amended): for every segment whose list parts are all non-empty,
every `pathPrefix` without two consecutive slashes, and every locale not
starting with a slash, the constructed path has exactly one leading slash
and no trailing slash (the root-path exception never arises under these
hypotheses). -/
theorem claimC6_constructPath_shape_amended (segment : Segment)
    (options : PathOptions) (hseg : segment.wf)
    (hpp : ∀ pp, options.pathPrefix = some pp → hasDoubleSlash pp = false)
    (hloc : ∀ l, options.locale = some l → l.head? ≠ some '/') :
    goodPath (constructPathFromSegment "/home".toList segment options) := by
  have hrw : constructPathFromSegment "/home".toList segment options
      = addLocalePrefix
          (normalizePathPrefix (options.pathPrefix.getD []) ++
            normalizeSegment "/home".toList
              (joinSlash ((segmentParts segment).map encodeURIComponent))
              (normalizePathPrefix (options.pathPrefix.getD [])))
          options.locale options.defaultLocale := rfl
  rw [hrw]
  apply addLocalePrefix_good _ _ _ hloc
  have hdspp : hasDoubleSlash (options.pathPrefix.getD []) = false := by
    rcases hppo : options.pathPrefix with _ | pp
    · rfl
    · exact hpp pp hppo
  have hpshape := normalizePathPrefix_shape _ hdspp
  have hpartsne : ∀ p ∈ segmentParts segment, p ≠ [] := by
    cases segment with
    | str s =>
      intro p hp
      simp only [segmentParts] at hp
      split at hp
      · rename_i hs
        rw [List.mem_singleton] at hp
        subst hp
        exact fun hnil => by simp [hnil] at hs
      · simp at hp
    | arr l => exact hseg
  by_cases hpe : segmentParts segment = []
  · have hj : joinSlash ((segmentParts segment).map encodeURIComponent) = [] := by
      rw [hpe]; rfl
    rw [hj]
    rcases hpshape with hpnil | ⟨c, t, hpc, hcne, hplast⟩
    · rw [hpnil]
      rw [show normalizeSegment "/home".toList [] [] = "/home".toList from by decide]
      exact ⟨'h', "ome".toList, by decide, by decide, by decide⟩
    · have hppne : normalizePathPrefix (options.pathPrefix.getD []) ≠ [] := by
        rw [hpc]; simp
      rw [normalizeSegment_of_empty _ _ hppne, List.append_nil]
      exact ⟨c, t, hpc, hcne, hplast⟩
  · have hencne : ∀ p ∈ (segmentParts segment).map encodeURIComponent, p ≠ [] := by
      intro p hp
      obtain ⟨q, hq, rfl⟩ := List.mem_map.mp hp
      exact encodeURIComponent_ne_nil q (hpartsne q hq)
    have hencch : ∀ p ∈ (segmentParts segment).map encodeURIComponent,
        ∀ c ∈ p, c ≠ '/' := by
      intro p hp
      obtain ⟨q, hq, rfl⟩ := List.mem_map.mp hp
      exact encodeURIComponent_chars q
    have hmapne : (segmentParts segment).map encodeURIComponent ≠ [] := by
      simpa using hpe
    have hjne : joinSlash ((segmentParts segment).map encodeURIComponent) ≠ [] :=
      joinSlash_ne_nil _ hmapne hencne
    have hjhead := joinSlash_head _ hmapne hencne hencch
    have hjlast := joinSlash_last _ hmapne hencne hencch
    obtain ⟨hseg3, hseg3last⟩ :=
      normalizeSegment_of_joined "/home".toList
        (normalizePathPrefix (options.pathPrefix.getD [])) _ hjne hjhead hjlast
    rw [hseg3]
    apply append_shape _ _ hpshape
    · obtain ⟨j, js, hjjs⟩ := List.exists_cons_of_ne_nil hjne
      refine Or.inr ⟨j, js, by rw [hjjs], ?_, hseg3last⟩
      rw [hjjs] at hjhead
      simpa using hjhead
    · rintro ⟨-, hseg_nil⟩
      exact absurd hseg_nil (by simp)

/-- C6 witness: a multi-part segment under a path prefix and a non-default
locale produces a path with exactly one leading slash and no trailing
slash. -/
theorem claimC6_witness :
    goodPath (constructPathFromSegment "/home".toList
      (.arr ["docs".toList, "intro".toList])
      { locale := some "fr".toList, defaultLocale := some "en".toList,
        pathPrefix := some "content".toList }) := by
  apply claimC6_constructPath_shape_amended
  · intro p hp
    fin_cases hp <;> decide
  · intro pp h
    cases h
    decide
  · intro l h
    cases h
    decide

end NextDrupal

